import Mathlib

/-!
SLCD: SparkFun SerLCD driver (`libraries/SLCD/SLCD.cpp`, `SLCD.h`)

A shallow embedding of the `SLCD` class.  The class owns two `int` fields
(`_numRows`, `_numCols`) and talks to a global `NewSoftSerial mySerial` and to
the Arduino `delay` function.  Everything the driver asks of the outside world
is recorded, in order, in a trace of events.

Target conventions (AVR Arduino): `int` is 16 bits, `char` is 8 bits,
`unsigned long` is 32 bits, `float` is IEEE binary32.  The C++ `%` operator
truncates toward zero (`Int.tmod`).
-/

namespace SLCD

/-! ## Command bytes (`#define`s of SLCD.cpp, lines 28-41) -/

def SPECIAL_CONTROL : Int := 0x7C
def DISPLAY_CONTROL : Int := 0xFE
def CLEAR : Int := 0x01
def CURSOR_RIGHT : Int := 0x14
def CURSOR_LEFT : Int := 0x10
def SCROLL_RIGHT : Int := 0x1C
def SCROLL_LEFT : Int := 0x18
def DISPLAY_ON : Int := 0x0C
def DISPLAY_OFF : Int := 0x08
def UNDERLINE_CURSOR_ON : Int := 0x0E
def UNDERLINE_CURSOR_OFF : Int := 0x0C
def BLINK_CURSOR_ON : Int := 0x0D
def BLINK_CURSOR_OFF : Int := 0x0C
def SET_POSITION : Int := 0x80

/-! ## Machine integers -/

/-- Two's-complement wrap of an integer result into the 16-bit `int` range. -/
def wrapInt (x : Int) : Int := (x + 32768) % 65536 - 32768

/-- Conversion `(char)x` of an integer: the low 8 bits, read as a signed char. -/
def toChar (x : Int) : Int := (x + 128) % 256 - 128

/-- The byte put on the wire for a `char` (or `byte`) value: its low 8 bits. -/
def byteOf (c : Int) : Nat := (c % 256).toNat

/-- Conversion of an `int` argument to the `unsigned long` parameter of `delay`. -/
def toULong (x : Int) : Nat := (x % 4294967296).toNat

/-! ## binary32 arithmetic

A `float` value is kept as the exact fraction it denotes.  Every operation
computes the exact result and rounds it to the nearest value with a 24-bit
significand, ties to even, with the binary32 minimum exponent.  Overflow to
infinity is not represented: with 16-bit `int` arguments every intermediate
value of `brightness` has magnitude below `2 ^ 14`. -/

/-- An exact fraction `num / den`, not normalised; `den` is positive. -/
structure Frac where
  num : Int
  den : Nat
deriving DecidableEq, Repr

/-- Number of binary digits of `n`, by at most `fuel` halvings. -/
def bitLength : Nat → Nat → Nat
  | 0, _ => 0
  | fuel + 1, n => if n = 0 then 0 else bitLength fuel (n / 2) + 1

/-- The integer `e` with `2 ^ e ≤ n / d < 2 ^ (e + 1)`, for positive `n` and `d`. -/
def floorLog2 (n d : Nat) : Int :=
  let k : Int := (bitLength n n : Int) - (bitLength d d : Int)
  let reaches : Bool := if k < 0 then d ≤ n * 2 ^ (-k).toNat else d * 2 ^ k.toNat ≤ n
  if reaches then k else k - 1

/-- Round an exact value to binary32: nearest, ties to even. -/
def roundF32 (x : Frac) : Frac :=
  if x.num = 0 then ⟨0, 1⟩
  else
    let n := x.num.natAbs
    let q : Int := max (floorLog2 n x.den - 23) (-149)
    let scaledNum : Nat := if q < 0 then n * 2 ^ (-q).toNat else n
    let scaledDen : Nat := if q < 0 then x.den else x.den * 2 ^ q.toNat
    let m0 := scaledNum / scaledDen
    let r := scaledNum % scaledDen
    let m : Nat := if scaledDen < 2 * r ∨ (2 * r = scaledDen ∧ m0 % 2 = 1) then m0 + 1 else m0
    let sgn : Int := if x.num < 0 then -1 else 1
    if q < 0 then ⟨sgn * m, 2 ^ (-q).toNat⟩ else ⟨sgn * (m * 2 ^ q.toNat), 1⟩

/-- Conversion `(float)i` of an `int`. -/
def floatOfInt (i : Int) : Frac := roundF32 ⟨i, 1⟩

/-- Float division `a / b`; the divisor is non-zero at its only use. -/
def floatDiv (a b : Frac) : Frac :=
  roundF32 ⟨(if b.num < 0 then -1 else 1) * a.num * b.den, a.den * b.num.natAbs⟩

/-- Float multiplication `a * b`. -/
def floatMul (a b : Frac) : Frac := roundF32 ⟨a.num * b.num, a.den * b.den⟩

/-- Float addition `a + b`. -/
def floatAdd (a b : Frac) : Frac := roundF32 ⟨a.num * b.den + b.num * a.den, a.den * b.den⟩

/-- Conversion `(char)f` of a float: truncate toward zero, keep the low 8 bits. -/
def floatToChar (f : Frac) : Int := toChar (Int.tdiv f.num f.den)

/-! ## The outside world -/

/-- What the driver asks of the serial port and of the clock. -/
inductive Event where
  | begin (baud : Nat)
  | write (byte : Nat)
  | delay (ms : Nat)
deriving DecidableEq, Repr

end SLCD

/-- The fields of `class SLCD` (SLCD.h, lines 54-55). -/
structure SLCD where
  numRows : Int
  numCols : Int
deriving DecidableEq, Repr

namespace SLCD

/-- The driver object together with the trace of everything done so far
(oldest event first). -/
structure Board where
  lcd : SLCD
  trace : List Event
deriving DecidableEq, Repr

/-- The bytes written to the serial port in a trace, in order. -/
def written : List Event → List Nat
  | [] => []
  | Event.write b :: es => b :: written es
  | _ :: es => written es

/-- The delays requested in a trace, in order (milliseconds). -/
def pauses : List Event → List Nat
  | [] => []
  | Event.delay ms :: es => ms :: pauses es
  | _ :: es => pauses es

/-- Effect of `mySerial.begin(baud)`. -/
def serialBegin (baud : Nat) (b : Board) : Board :=
  ⟨b.lcd, b.trace ++ [Event.begin baud]⟩

/-- Effect of `mySerial.print(char)`: one byte goes out. -/
def serialPrintChar (c : Int) (b : Board) : Board :=
  ⟨b.lcd, b.trace ++ [Event.write (byteOf c)]⟩

/-- Effect of `mySerial.print(const char*)`: every byte of the string goes out.
A C string is given by its bytes before the terminating NUL. -/
def serialPrintStr (s : List Nat) (b : Board) : Board :=
  ⟨b.lcd, b.trace ++ s.map Event.write⟩

/-- Effect of Arduino `delay(ms)` called with an `int` argument. -/
def delay (ms : Int) (b : Board) : Board :=
  ⟨b.lcd, b.trace ++ [Event.delay (toULong ms)]⟩

/-! ## The class -/

/-- Constructor `SLCD::SLCD(int rows, int cols)` (SLCD.cpp, lines 45-49). -/
def new (rows cols : Int) : SLCD := ⟨rows, cols⟩

/-- A freshly constructed driver with nothing sent yet. -/
def fresh (rows cols : Int) : Board := ⟨new rows cols, []⟩

/-- Method `SLCD::sendControl(char c)` (lines 110-113). -/
def sendControl (c : Int) (b : Board) : Board :=
  serialPrintChar c (serialPrintChar (toChar DISPLAY_CONTROL) b)

/-- Method `SLCD::clear()` (lines 115-117). -/
def clear (b : Board) : Board := sendControl CLEAR b

/-- Method `SLCD::cursor(int line, int col)` (lines 119-127).  The two `%=`
are undefined for a zero divisor; that is the only way the method fails. -/
def cursor (line col : Int) (b : Board) : Option Board :=
  if b.lcd.numRows = 0 then none
  else
    let line := Int.tmod line b.lcd.numRows
    if b.lcd.numCols = 0 then none
    else
      let col := Int.tmod col b.lcd.numCols
      let offset := wrapInt (wrapInt (Int.tmod line 2 * 64) + (if line > 1 then 20 else 0))
      some (delay 10 (sendControl (toChar (wrapInt (wrapInt (offset + col) + 128))) b))

/-- Method `SLCD::cursorLeft()` (lines 129-131). -/
def cursorLeft (b : Board) : Board := sendControl CURSOR_LEFT b

/-- Method `SLCD::cursorRight()` (lines 133-135). -/
def cursorRight (b : Board) : Board := sendControl CURSOR_RIGHT b

/-- Method `SLCD::underlineCursorOn()` (lines 138-140). -/
def underlineCursorOn (b : Board) : Board := sendControl UNDERLINE_CURSOR_ON b

/-- Method `SLCD::underlineCursorOff()` (lines 141-143). -/
def underlineCursorOff (b : Board) : Board := sendControl UNDERLINE_CURSOR_OFF b

/-- Method `SLCD::blinkCursorOn()` (lines 145-147). -/
def blinkCursorOn (b : Board) : Board := sendControl BLINK_CURSOR_ON b

/-- Method `SLCD::blinkCursorOff()` (lines 148-150). -/
def blinkCursorOff (b : Board) : Board := sendControl BLINK_CURSOR_OFF b

/-- Method `SLCD::displayOn()` (lines 153-155). -/
def displayOn (b : Board) : Board := sendControl DISPLAY_ON b

/-- Method `SLCD::displayOff()` (lines 156-158). -/
def displayOff (b : Board) : Board := sendControl DISPLAY_OFF b

/-- Method `SLCD::brightness(int pct)` (lines 64-72). -/
def brightness (pct : Int) (b : Board) : Board :=
  let level : Int := if pct > 100 then Int.tmod pct 100 else pct
  let brightness : Frac :=
    floatAdd (floatMul (floatDiv (floatOfInt level) (floatOfInt 100)) (floatOfInt 29))
      (floatOfInt 128)
  delay 5 (serialPrintChar (floatToChar brightness) (serialPrintChar (toChar SPECIAL_CONTROL) b))

/-- The loop of `flash`: `n` rounds of off, pause, full, pause. -/
def flashLoop (delayMs : Int) : Nat → Board → Board
  | 0, b => b
  | n + 1, b =>
    flashLoop delayMs n
      (delay (Int.tmod delayMs 1000) (brightness 100
        (delay (Int.tmod delayMs 1000) (brightness 0 b))))

/-- Method `SLCD::flash(int count, int delayMs)` (lines 74-83). -/
def flash (count delayMs : Int) (b : Board) : Board :=
  flashLoop delayMs count.toNat b

/-- Method `SLCD::print(const char *s)` (lines 94-96). -/
def print_s (s : List Nat) (b : Board) : Board := serialPrintStr s b

/-- Method `SLCD::print(const char *s, int line, int col)` (lines 85-88). -/
def print_s_line_col (s : List Nat) (line col : Int) (b : Board) : Option Board :=
  (cursor line col b).map (serialPrintStr s)

/-- Method `SLCD::print(int line, int col, const char *s)` (lines 90-92). -/
def print_line_col_s (line col : Int) (s : List Nat) (b : Board) : Option Board :=
  print_s_line_col s line col b

/-- The loop of `vscroll`: `n` rounds of `sendControl(controlChar); delay(delayMs)`. -/
def vscrollLoop (controlChar : Int) (delayMs : Int) : Nat → Board → Board
  | 0, b => b
  | n + 1, b => vscrollLoop controlChar delayMs n (delay delayMs (sendControl (toChar controlChar) b))

/-- Method `SLCD::vscroll(int spaces, int delayMs)` (lines 98-107).  `abs` of the
most negative `int` wraps back to itself, and the loop then does not run. -/
def vscroll (spaces delayMs : Int) (b : Board) : Board :=
  let controlChar : Int := if spaces ≥ 0 then SCROLL_RIGHT else SCROLL_LEFT
  let numSpaces : Int := wrapInt (if spaces > 0 then spaces else -spaces)
  vscrollLoop controlChar delayMs numSpaces.toNat b

/-- The bytes of a string literal (ASCII), without the terminating NUL. -/
def cstr (s : String) : List Nat := s.toList.map Char.toNat

/-- Method `SLCD::init()` (lines 51-62). -/
def init (b : Board) : Option Board :=
  (print_s_line_col (cstr "SerLCD Class") 0 2 (clear (serialBegin 9600 b))).bind fun b1 =>
    (print_s_line_col (cstr "initialized") 1 3 (underlineCursorOff (brightness 100 b1))).map
      (flash 3 100)

/-! ## Sequences of calls -/

/-- One call of a public method of the class, with its arguments. -/
inductive Op where
  | init
  | brightness (pct : Int)
  | flash (count delayMs : Int)
  | print_s_line_col (s : List Nat) (line col : Int)
  | print_line_col_s (line col : Int) (s : List Nat)
  | print_s (s : List Nat)
  | vscroll (spaces delayMs : Int)
  | clear
  | cursor (line col : Int)
  | cursorLeft
  | cursorRight
  | underlineCursorOn
  | underlineCursorOff
  | blinkCursorOn
  | blinkCursorOff
  | displayOn
  | displayOff
deriving DecidableEq, Repr

/-- Perform one call. -/
def exec : Op → Board → Option Board
  | Op.init, b => init b
  | Op.brightness pct, b => some (brightness pct b)
  | Op.flash count delayMs, b => some (flash count delayMs b)
  | Op.print_s_line_col s line col, b => print_s_line_col s line col b
  | Op.print_line_col_s line col s, b => print_line_col_s line col s b
  | Op.print_s s, b => some (print_s s b)
  | Op.vscroll spaces delayMs, b => some (vscroll spaces delayMs b)
  | Op.clear, b => some (clear b)
  | Op.cursor line col, b => cursor line col b
  | Op.cursorLeft, b => some (cursorLeft b)
  | Op.cursorRight, b => some (cursorRight b)
  | Op.underlineCursorOn, b => some (underlineCursorOn b)
  | Op.underlineCursorOff, b => some (underlineCursorOff b)
  | Op.blinkCursorOn, b => some (blinkCursorOn b)
  | Op.blinkCursorOff, b => some (blinkCursorOff b)
  | Op.displayOn, b => some (displayOn b)
  | Op.displayOff, b => some (displayOff b)

/-- Perform a sequence of calls, first to last. -/
def run : List Op → Board → Option Board
  | [], b => some b
  | op :: ops, b => (exec op b).bind (run ops)

/-- The bytes a call adds to the serial output, when the call returns. -/
def emits (f : Board → Option Board) (b : Board) : Option (List Nat) :=
  (f b).map fun b1 => written (b1.trace.drop b.trace.length)

/-! ## Quantities named in the specification -/

/-- Row base addresses as the specification lists them. -/
def rowBase : Int → Int
  | 0 => 0
  | 1 => 64
  | 2 => 20
  | 3 => 84
  | _ => 0

/-- The level byte `brightness` sends once `level` is fixed: the float expression of
line 67 followed by the conversion `(char)brightness` of line 69. -/
def levelByte (level : Int) : Nat :=
  byteOf (floatToChar
    (floatAdd (floatMul (floatDiv (floatOfInt level) (floatOfInt 100)) (floatOfInt 29))
      (floatOfInt 128)))

/-! ## Basic facts about traces -/

theorem written_append (xs ys : List Event) :
    written (xs ++ ys) = written xs ++ written ys := by
  induction xs with
  | nil => rfl
  | cons e es ih => cases e <;> simp [written, ih]

theorem written_map_write (s : List Nat) : written (s.map Event.write) = s := by
  induction s with
  | nil => rfl
  | cons x xs ih => simp [written, ih]

theorem emits_of_trace (f : Board → Option Board) (b b1 : Board) (es : List Event)
    (h : f b = some b1) (ht : b1.trace = b.trace ++ es) : emits f b = some (written es) := by
  simp [emits, h, ht]

/-- Arithmetic of `cursor`: wrapping the `int` results does not change the byte sent. -/
theorem byteOf_cursor_arith (m t c : Int) :
    byteOf (toChar (wrapInt (wrapInt (wrapInt (wrapInt (m * 64) + t) + c) + 128)))
      = ((m * 64 + t + c + 128) % 256).toNat := by
  unfold byteOf toChar wrapInt
  congr 1
  omega

/-- What `cursor` does whenever both dimensions are non-zero. -/
theorem cursor_some (line col : Int) (b : Board)
    (hr : b.lcd.numRows ≠ 0) (hc : b.lcd.numCols ≠ 0) :
    cursor line col b = some ⟨b.lcd, b.trace ++
      [Event.write 0xFE,
       Event.write ((Int.tmod (Int.tmod line b.lcd.numRows) 2 * 64
          + (if Int.tmod line b.lcd.numRows > 1 then 20 else 0)
          + Int.tmod col b.lcd.numCols + 128) % 256).toNat,
       Event.delay 10]⟩ := by
  simp only [cursor, hr, hc, if_false, delay, sendControl, serialPrintChar, byteOf_cursor_arith]
  simp [byteOf, toChar, toULong, DISPLAY_CONTROL]


theorem tmod_self_of_range (a n : Int) (h0 : 0 ≤ a) (h1 : a < n) : Int.tmod a n = a := by
  rw [Int.tmod_eq_emod h0 (by omega)]
  exact Int.emod_eq_of_lt h0 h1

/-- C1: on a display built with 1..4 rows and 1..20 columns, `cursor(line, col)` at an
in-range position returns and adds exactly the bytes `0xFE, 128 + base(line) + col` to
the serial output, where `base` is 0, 64, 20, 84 for lines 0..3, that is
`(line mod 2) * 64 + (20 if line > 1 else 0)`. -/
theorem cursor_in_range_bytes (rows cols line col : Int) (t : List Event)
    (hrows : 1 ≤ rows ∧ rows ≤ 4) (hcols : 1 ≤ cols ∧ cols ≤ 20)
    (hline : 0 ≤ line ∧ line < rows) (hcol : 0 ≤ col ∧ col < cols) :
    (∃ b1, cursor line col ⟨new rows cols, t⟩ = some b1 ∧
      written b1.trace = written t ++ [0xFE, (128 + rowBase line + col).toNat]) ∧
    rowBase line = (line % 2) * 64 + (if line > 1 then 20 else 0) := by
  obtain ⟨hr1, hr4⟩ := hrows
  obtain ⟨hc1, hc20⟩ := hcols
  obtain ⟨hl0, hl1⟩ := hline
  obtain ⟨hc0, hcc⟩ := hcol
  have hl4 : line < 4 := by omega
  have hbase : rowBase line = (line % 2) * 64 + (if line > 1 then 20 else 0) := by
    interval_cases line <;> simp [rowBase]
  refine ⟨?_, hbase⟩
  have hrne : (⟨new rows cols, t⟩ : Board).lcd.numRows ≠ 0 := by simp [new]; omega
  have hcne : (⟨new rows cols, t⟩ : Board).lcd.numCols ≠ 0 := by simp [new]; omega
  refine ⟨_, cursor_some line col _ hrne hcne, ?_⟩
  simp only [new, written_append, written]
  simp only [tmod_self_of_range line rows hl0 hl1, tmod_self_of_range col cols hc0 hcc]
  have hb : rowBase line = Int.tmod line 2 * 64 + (if line > 1 then 20 else 0) := by
    rw [hbase, Int.tmod_eq_emod hl0 (by omega)]
  rw [← hb]
  have hrange : 0 ≤ rowBase line ∧ rowBase line ≤ 84 := by
    interval_cases line <;> simp [rowBase]
  congr 3
  omega

theorem cursor_in_range_bytes_witness :
    (∃ b1, cursor 3 19 ⟨new 4 20, []⟩ = some b1 ∧
      written b1.trace = written [] ++ [0xFE, (128 + rowBase 3 + 19).toNat]) ∧
    rowBase 3 = (3 % 2) * 64 + (if (3 : Int) > 1 then 20 else 0) :=
  cursor_in_range_bytes 4 20 3 19 [] (by decide) (by decide) (by decide) (by decide)


theorem tmod_emod_idem (a n : Int) (ha : 0 ≤ a) (hn : 0 < n) :
    Int.tmod (a % n) n = Int.tmod a n := by
  rw [Int.tmod_eq_emod ha (by omega),
    Int.tmod_eq_emod (Int.emod_nonneg a (by omega)) (by omega), Int.emod_emod_of_dvd a (dvd_refl n)]

theorem tmod_add_self (a n : Int) (ha : 0 ≤ a) (hn : 0 < n) :
    Int.tmod (a + n) n = Int.tmod a n := by
  rw [Int.tmod_eq_emod (by omega) (by omega), Int.tmod_eq_emod ha (by omega), Int.add_emod_self]

/-- C2, as stated, fails: on a 2 x 16 display `cursor(-1, 0)` does not write the bytes of
`cursor(1, 0)`, although 1 is the representative of -1 modulo 2 (it writes `0xFE, 0x40`,
the other `0xFE, 0xC0`). -/
theorem cursor_negative_line_not_modular :
    emits (cursor (-1) 0) (fresh 2 16) = some [0xFE, 0x40] ∧
    emits (cursor ((-1) % 2) (0 % 16)) (fresh 2 16) = some [0xFE, 0xC0] ∧
    emits (cursor (-1) 0) (fresh 2 16) ≠ emits (cursor ((-1) % 2) (0 % 16)) (fresh 2 16) := by
  decide

/-- C2, amended: for non-negative `line` and `col` on a display with positive dimensions,
`cursor(line, col)` returns and does exactly what `cursor(line mod rows, col mod cols)`
does; in particular `cursor(line + rows, col)` and `cursor(line, col + cols)` do what
`cursor(line, col)` does. -/
theorem cursor_modular_nonneg (rows cols line col : Int) (t : List Event)
    (hrows : 0 < rows) (hcols : 0 < cols) (hline : 0 ≤ line) (hcol : 0 ≤ col) :
    (cursor line col ⟨new rows cols, t⟩).isSome = true ∧
    cursor line col ⟨new rows cols, t⟩ = cursor (line % rows) (col % cols) ⟨new rows cols, t⟩ ∧
    cursor (line + rows) col ⟨new rows cols, t⟩ = cursor line col ⟨new rows cols, t⟩ ∧
    cursor line (col + cols) ⟨new rows cols, t⟩ = cursor line col ⟨new rows cols, t⟩ ∧
    emits (cursor line col) ⟨new rows cols, t⟩
      = emits (cursor (line % rows) (col % cols)) ⟨new rows cols, t⟩ := by
  have hrne : (⟨new rows cols, t⟩ : Board).lcd.numRows ≠ 0 := by simp [new]; omega
  have hcne : (⟨new rows cols, t⟩ : Board).lcd.numCols ≠ 0 := by simp [new]; omega
  have h1 : cursor line col ⟨new rows cols, t⟩
      = cursor (line % rows) (col % cols) ⟨new rows cols, t⟩ := by
    rw [cursor_some _ _ _ hrne hcne, cursor_some _ _ _ hrne hcne]
    simp only [new, tmod_emod_idem line rows hline hrows, tmod_emod_idem col cols hcol hcols]
  refine ⟨?_, h1, ?_, ?_, ?_⟩
  · rw [cursor_some _ _ _ hrne hcne]; rfl
  · rw [cursor_some _ _ _ hrne hcne, cursor_some _ _ _ hrne hcne]
    simp only [new, tmod_add_self line rows hline hrows]
  · rw [cursor_some _ _ _ hrne hcne, cursor_some _ _ _ hrne hcne]
    simp only [new, tmod_add_self col cols hcol hcols]
  · simp only [emits, h1]

theorem cursor_modular_nonneg_witness :
    (cursor 5 37 ⟨new 2 16, []⟩).isSome = true ∧
    cursor 5 37 ⟨new 2 16, []⟩ = cursor (5 % 2) (37 % 16) ⟨new 2 16, []⟩ ∧
    cursor (5 + 2) 37 ⟨new 2 16, []⟩ = cursor 5 37 ⟨new 2 16, []⟩ ∧
    cursor 5 (37 + 16) ⟨new 2 16, []⟩ = cursor 5 37 ⟨new 2 16, []⟩ ∧
    emits (cursor 5 37) ⟨new 2 16, []⟩ = emits (cursor (5 % 2) (37 % 16)) ⟨new 2 16, []⟩ :=
  cursor_modular_nonneg 2 16 5 37 [] (by decide) (by decide) (by decide) (by decide)


/-! ### The fields are never assigned after construction -/

theorem vscrollLoop_lcd (c d : Int) (n : Nat) (b : Board) :
    (vscrollLoop c d n b).lcd = b.lcd := by
  induction n generalizing b with
  | zero => rfl
  | succ k ih => rw [vscrollLoop, ih]; rfl

theorem flashLoop_lcd (d : Int) (n : Nat) (b : Board) : (flashLoop d n b).lcd = b.lcd := by
  induction n generalizing b with
  | zero => rfl
  | succ k ih => rw [flashLoop, ih]; rfl

theorem cursor_lcd (line col : Int) (b b1 : Board) (h : cursor line col b = some b1) :
    b1.lcd = b.lcd := by
  unfold cursor at h
  split at h
  · exact absurd h (by simp)
  · split at h
    · exact absurd h (by simp)
    · simp only [Option.some.injEq] at h
      rw [← h]; rfl

theorem print_s_line_col_lcd (s : List Nat) (line col : Int) (b b1 : Board)
    (h : print_s_line_col s line col b = some b1) : b1.lcd = b.lcd := by
  unfold print_s_line_col at h
  cases hc : cursor line col b with
  | none => rw [hc] at h; exact absurd h (by simp)
  | some b2 =>
    rw [hc] at h
    simp only [Option.map_some', Option.some.injEq] at h
    rw [← h]
    exact cursor_lcd line col b b2 hc

theorem init_lcd (b b1 : Board) (h : init b = some b1) : b1.lcd = b.lcd := by
  unfold init at h
  cases h1 : print_s_line_col (cstr "SerLCD Class") 0 2 (clear (serialBegin 9600 b)) with
  | none => rw [h1] at h; exact absurd h (by simp)
  | some b2 =>
    rw [h1] at h
    simp only [Option.some_bind] at h
    cases h2 : print_s_line_col (cstr "initialized") 1 3
        (underlineCursorOff (brightness 100 b2)) with
    | none => rw [h2] at h; exact absurd h (by simp)
    | some b3 =>
      rw [h2] at h
      simp only [Option.map_some', Option.some.injEq] at h
      rw [← h, flash, flashLoop_lcd, print_s_line_col_lcd _ _ _ _ _ h2]
      have := print_s_line_col_lcd _ _ _ _ _ h1
      simpa [underlineCursorOff, sendControl, serialPrintChar, brightness, delay, clear,
        serialBegin] using this

theorem exec_lcd (op : Op) (b b1 : Board) (h : exec op b = some b1) : b1.lcd = b.lcd := by
  cases op with
  | init => exact init_lcd b b1 h
  | print_s_line_col s line col => exact print_s_line_col_lcd s line col b b1 h
  | print_line_col_s line col s => exact print_s_line_col_lcd s line col b b1 h
  | cursor line col => exact cursor_lcd line col b b1 h
  | flash count delayMs =>
    simp only [exec, Option.some.injEq] at h
    rw [← h, flash, flashLoop_lcd]
  | vscroll spaces delayMs =>
    simp only [exec, Option.some.injEq] at h
    rw [← h, vscroll, vscrollLoop_lcd]
  | _ =>
    simp only [exec, Option.some.injEq] at h
    rw [← h]; rfl

theorem run_lcd (ops : List Op) (b b1 : Board) (h : run ops b = some b1) : b1.lcd = b.lcd := by
  induction ops generalizing b with
  | nil =>
    simp only [run, Option.some.injEq] at h
    rw [h]
  | cons op rest ih =>
    simp only [run] at h
    cases he : exec op b with
    | none => rw [he] at h; exact absurd h (by simp)
    | some b2 =>
      rw [he] at h
      simp only [Option.some_bind] at h
      rw [ih b2 h, exec_lcd op b b2 he]


/-! ### Calls return whenever both dimensions are non-zero -/

theorem print_s_line_col_isSome (s : List Nat) (line col : Int) (b : Board)
    (hr : b.lcd.numRows ≠ 0) (hc : b.lcd.numCols ≠ 0) :
    (print_s_line_col s line col b).isSome = true := by
  rw [print_s_line_col, cursor_some line col b hr hc]; rfl

theorem init_isSome (b : Board) (hr : b.lcd.numRows ≠ 0) (hc : b.lcd.numCols ≠ 0) :
    (init b).isSome = true := by
  have hb0 : (clear (serialBegin 9600 b)).lcd = b.lcd := rfl
  obtain ⟨b2, h1⟩ := Option.isSome_iff_exists.mp
    (print_s_line_col_isSome (cstr "SerLCD Class") 0 2 (clear (serialBegin 9600 b))
      (by rw [hb0]; exact hr) (by rw [hb0]; exact hc))
  have hb2 : b2.lcd = b.lcd := by rw [print_s_line_col_lcd _ _ _ _ _ h1, hb0]
  have hb3 : (underlineCursorOff (brightness 100 b2)).lcd = b.lcd := by rw [← hb2]; rfl
  obtain ⟨b4, h2⟩ := Option.isSome_iff_exists.mp
    (print_s_line_col_isSome (cstr "initialized") 1 3 (underlineCursorOff (brightness 100 b2))
      (by rw [hb3]; exact hr) (by rw [hb3]; exact hc))
  simp only [init, h1, Option.some_bind, h2, Option.map_some', Option.isSome_some]

theorem exec_isSome (op : Op) (b : Board) (hr : b.lcd.numRows ≠ 0) (hc : b.lcd.numCols ≠ 0) :
    (exec op b).isSome = true := by
  cases op with
  | init => exact init_isSome b hr hc
  | print_s_line_col s line col => exact print_s_line_col_isSome s line col b hr hc
  | print_line_col_s line col s => exact print_s_line_col_isSome s line col b hr hc
  | cursor line col => simp only [exec]; rw [cursor_some line col b hr hc]; rfl
  | _ => rfl

theorem run_isSome (ops : List Op) (b : Board) (hr : b.lcd.numRows ≠ 0)
    (hc : b.lcd.numCols ≠ 0) : (run ops b).isSome = true := by
  induction ops generalizing b with
  | nil => rfl
  | cons op rest ih =>
    obtain ⟨b2, he⟩ := Option.isSome_iff_exists.mp (exec_isSome op b hr hc)
    have hl := exec_lcd op b b2 he
    simp only [run, he, Option.some_bind]
    exact ih b2 (by rw [hl]; exact hr) (by rw [hl]; exact hc)

/-- The bytes `cursor` adds depend on the two stored dimensions only. -/
theorem emits_cursor_congr (line col : Int) (b b1 : Board) (h : b1.lcd = b.lcd) :
    emits (cursor line col) b1 = emits (cursor line col) b := by
  by_cases hr : b.lcd.numRows = 0
  · simp [emits, cursor, h, hr]
  · by_cases hc : b.lcd.numCols = 0
    · simp [emits, cursor, h, hc]
    · rw [emits_of_trace _ _ _ _ (cursor_some line col b hr hc) rfl,
        emits_of_trace _ _ _ _ (cursor_some line col b1 (by rw [h]; exact hr)
          (by rw [h]; exact hc)) rfl, h]

/-- C3: no sequence of calls of the public methods changes the stored row and column
counts, so after it `cursor(line, col)` adds exactly the bytes it adds on a freshly
constructed `SLCD(rows, cols)`; and with non-zero dimensions every such sequence returns. -/
theorem cursor_same_after_any_calls (rows cols : Int) (ops : List Op) :
    (∀ b1, run ops (fresh rows cols) = some b1 →
      b1.lcd = new rows cols ∧
      ∀ line col, emits (cursor line col) b1 = emits (cursor line col) (fresh rows cols)) ∧
    (rows ≠ 0 → cols ≠ 0 → (run ops (fresh rows cols)).isSome = true) := by
  refine ⟨fun b1 h => ?_, fun hr hc => run_isSome ops (fresh rows cols) hr hc⟩
  have hl : b1.lcd = (fresh rows cols).lcd := run_lcd ops (fresh rows cols) b1 h
  exact ⟨hl, fun line col => emits_cursor_congr line col (fresh rows cols) b1 hl⟩

theorem cursor_same_after_any_calls_witness :
    (∀ b1, run [Op.init, Op.vscroll (-2) 5, Op.cursor 7 3, Op.brightness 40]
        (fresh 2 16) = some b1 →
      b1.lcd = new 2 16 ∧
      ∀ line col, emits (cursor line col) b1 = emits (cursor line col) (fresh 2 16)) ∧
    (run [Op.init, Op.vscroll (-2) 5, Op.cursor 7 3, Op.brightness 40]
      (fresh 2 16)).isSome = true :=
  ⟨(cursor_same_after_any_calls 2 16 _).1,
    (cursor_same_after_any_calls 2 16 _).2 (by decide) (by decide)⟩


/-! ### Single commands -/

theorem sendControl_trace (c : Int) (b : Board) :
    (sendControl c b).trace = b.trace ++ [Event.write 0xFE, Event.write (byteOf c)] := by
  simp [sendControl, serialPrintChar, byteOf, toChar, DISPLAY_CONTROL]

theorem written_sendControl (c : Int) (b : Board) :
    written (sendControl c b).trace = written b.trace ++ [0xFE, byteOf c] := by
  rw [sendControl_trace, written_append]; rfl

/-- C4: each parameterless command adds exactly two bytes to the serial output, `0xFE`
followed by its command byte: clear 0x01, cursorLeft 0x10, cursorRight 0x14,
underlineCursorOn 0x0E, underlineCursorOff 0x0C, blinkCursorOn 0x0D, blinkCursorOff 0x0C,
displayOn 0x0C, displayOff 0x08. -/
theorem parameterless_commands_bytes (b : Board) :
    written (clear b).trace = written b.trace ++ [0xFE, 0x01] ∧
    written (cursorLeft b).trace = written b.trace ++ [0xFE, 0x10] ∧
    written (cursorRight b).trace = written b.trace ++ [0xFE, 0x14] ∧
    written (underlineCursorOn b).trace = written b.trace ++ [0xFE, 0x0E] ∧
    written (underlineCursorOff b).trace = written b.trace ++ [0xFE, 0x0C] ∧
    written (blinkCursorOn b).trace = written b.trace ++ [0xFE, 0x0D] ∧
    written (blinkCursorOff b).trace = written b.trace ++ [0xFE, 0x0C] ∧
    written (displayOn b).trace = written b.trace ++ [0xFE, 0x0C] ∧
    written (displayOff b).trace = written b.trace ++ [0xFE, 0x08] := by
  refine ⟨?_, ?_, ?_, ?_, ?_, ?_, ?_, ?_, ?_⟩ <;>
    simp only [clear, cursorLeft, cursorRight, underlineCursorOn, underlineCursorOff,
      blinkCursorOn, blinkCursorOff, displayOn, displayOff, written_sendControl] <;> rfl

/-! ### Brightness -/

/-- The rounding agrees with the binary32 constants `0.01f` (bits `0x3C23D70A`) and
`0.29f` (bits `0x3E947AE1`), and is exact on 16-bit integers such as 100 and -32768. -/
theorem roundF32_samples :
    floatDiv (floatOfInt 1) (floatOfInt 100) = ⟨0xA3D70A, 2 ^ 30⟩ ∧
    floatMul (floatDiv (floatOfInt 1) (floatOfInt 100)) (floatOfInt 29) = ⟨0x947AE1, 2 ^ 25⟩ ∧
    floatOfInt 100 = ⟨100 * 2 ^ 17, 2 ^ 17⟩ ∧ floatOfInt (-32768) = ⟨-32768 * 2 ^ 8, 2 ^ 8⟩ := by
  decide

theorem brightness_eq (pct : Int) (b : Board) :
    brightness pct b = ⟨b.lcd, b.trace ++
      [Event.write 0x7C, Event.write (levelByte (if pct > 100 then Int.tmod pct 100 else pct)),
       Event.delay 5]⟩ := by
  simp [brightness, levelByte, delay, serialPrintChar, byteOf, toChar, toULong, SPECIAL_CONTROL]

theorem written_brightness (pct : Int) (b : Board) :
    written (brightness pct b).trace = written b.trace ++
      [0x7C, levelByte (if pct > 100 then Int.tmod pct 100 else pct)] := by
  rw [brightness_eq, written_append]; rfl

set_option maxRecDepth 100000 in
/-- The float computation, evaluated at each of the levels 0..100. -/
theorem levelByte_table : ∀ n : Nat, n ≤ 100 → levelByte (n : Int) = 128 + 29 * n / 100 := by
  decide


theorem levelByte_of_range (p : Int) (h0 : 0 ≤ p) (h1 : p ≤ 100) :
    levelByte p = (128 + 29 * p / 100).toNat := by
  obtain ⟨n, rfl⟩ := Int.eq_ofNat_of_zero_le h0
  rw [levelByte_table n (by omega)]
  omega

theorem written_brightness_of_range (p : Int) (b : Board) (h0 : 0 ≤ p) (h1 : p ≤ 100) :
    written (brightness p b).trace = written b.trace ++ [0x7C, (128 + 29 * p / 100).toNat] := by
  rw [written_brightness, if_neg (by omega), levelByte_of_range p h0 h1]

/-- C5: for `0 ≤ pct ≤ 100`, `brightness(pct)` adds exactly the two bytes
`0x7C, 128 + floor(29 * pct / 100)` to the serial output; that level lies in 128..157, is
128 at 0 and 157 at 100, and does not decrease when `pct` grows (stated for two
percentages `p ≤ q`). -/
theorem brightness_percent_bytes (p q : Int) (b : Board)
    (hp : 0 ≤ p) (hpq : p ≤ q) (hq : q ≤ 100) :
    written (brightness p b).trace = written b.trace ++ [0x7C, (128 + 29 * p / 100).toNat] ∧
    written (brightness q b).trace = written b.trace ++ [0x7C, (128 + 29 * q / 100).toNat] ∧
    128 ≤ (128 + 29 * p / 100).toNat ∧ (128 + 29 * p / 100).toNat ≤ 157 ∧
    (128 + 29 * p / 100).toNat ≤ (128 + 29 * q / 100).toNat ∧
    written (brightness 0 b).trace = written b.trace ++ [0x7C, 128] ∧
    written (brightness 100 b).trace = written b.trace ++ [0x7C, 157] := by
  refine ⟨written_brightness_of_range p b hp (by omega),
    written_brightness_of_range q b (by omega) hq, by omega, by omega, by omega,
    written_brightness_of_range 0 b (by omega) (by omega),
    written_brightness_of_range 100 b (by omega) (by omega)⟩

theorem brightness_percent_bytes_witness :
    written (brightness 33 (fresh 2 16)).trace
      = written (fresh 2 16).trace ++ [0x7C, (128 + 29 * 33 / 100 : Int).toNat] ∧
    written (brightness 34 (fresh 2 16)).trace
      = written (fresh 2 16).trace ++ [0x7C, (128 + 29 * 34 / 100 : Int).toNat] ∧
    128 ≤ (128 + 29 * 33 / 100 : Int).toNat ∧ (128 + 29 * 33 / 100 : Int).toNat ≤ 157 ∧
    (128 + 29 * 33 / 100 : Int).toNat ≤ (128 + 29 * 34 / 100 : Int).toNat ∧
    written (brightness 0 (fresh 2 16)).trace = written (fresh 2 16).trace ++ [0x7C, 128] ∧
    written (brightness 100 (fresh 2 16)).trace = written (fresh 2 16).trace ++ [0x7C, 157] :=
  brightness_percent_bytes 33 34 (fresh 2 16) (by decide) (by decide) (by decide)


/-! ### Scrolling -/

theorem vscrollLoop_trace (c d : Int) (n : Nat) (b : Board) :
    (vscrollLoop c d n b).trace = b.trace ++ (List.replicate n
      [Event.write 0xFE, Event.write (byteOf (toChar c)), Event.delay (toULong d)]).flatten := by
  induction n generalizing b with
  | zero => simp [vscrollLoop]
  | succ k ih =>
    rw [vscrollLoop, ih, List.replicate_succ, List.flatten_cons, ← List.append_assoc]
    congr 1
    simp [delay, sendControl_trace]

theorem written_scroll_rounds (x y d : Nat) (n : Nat) :
    written (List.replicate n [Event.write x, Event.write y, Event.delay d]).flatten
      = (List.replicate n [x, y]).flatten := by
  induction n with
  | zero => rfl
  | succ k ih =>
    rw [List.replicate_succ, List.flatten_cons, written_append, ih, List.replicate_succ,
      List.flatten_cons]
    rfl

theorem length_flatten_replicate_pair (x y : Nat) (n : Nat) :
    ((List.replicate n [x, y]).flatten).length = 2 * n := by
  induction n with
  | zero => rfl
  | succ k ih =>
    rw [List.replicate_succ, List.flatten_cons, List.length_append, ih]
    simp only [List.length_cons, List.length_nil]
    omega

theorem written_vscroll (spaces delayMs : Int) (b : Board)
    (hlo : -32767 ≤ spaces) (hhi : spaces ≤ 32767) :
    written (vscroll spaces delayMs b).trace = written b.trace ++
      (List.replicate spaces.natAbs [0xFE, if spaces ≥ 0 then 0x1C else 0x18]).flatten := by
  have hn : (wrapInt (if spaces > 0 then spaces else -spaces)).toNat = spaces.natAbs := by
    unfold wrapInt
    split <;> omega
  simp only [vscroll, vscrollLoop_trace, written_append, written_scroll_rounds, hn]
  by_cases h : spaces ≥ 0
  · simp only [h, if_true]; rfl
  · simp only [h, if_false]; rfl

/-- C6: for every `spaces` whose absolute value fits an `int` (-32767..32767) and every
`delayMs`, `vscroll(spaces, delayMs)` adds exactly `|spaces|` repetitions of the pair
`0xFE, 0x1C` (for `spaces ≥ 0`) or `0xFE, 0x18` (for `spaces < 0`) to the serial output,
`2 * |spaces|` bytes in all, and these bytes are the same for every other delay. -/
theorem vscroll_bytes (spaces delayMs : Int) (b : Board)
    (hlo : -32767 ≤ spaces) (hhi : spaces ≤ 32767) :
    written (vscroll spaces delayMs b).trace = written b.trace ++
      (List.replicate spaces.natAbs [0xFE, if spaces ≥ 0 then 0x1C else 0x18]).flatten ∧
    (written (vscroll spaces delayMs b).trace).length
      = (written b.trace).length + 2 * spaces.natAbs ∧
    (spaces = 0 → written (vscroll spaces delayMs b).trace = written b.trace) ∧
    ∀ d : Int, written (vscroll spaces d b).trace = written (vscroll spaces delayMs b).trace := by
  refine ⟨written_vscroll spaces delayMs b hlo hhi, ?_, ?_, fun d => ?_⟩
  · rw [written_vscroll spaces delayMs b hlo hhi, List.length_append,
      length_flatten_replicate_pair]
  · intro h0
    rw [written_vscroll spaces delayMs b hlo hhi, h0]
    simp
  · rw [written_vscroll spaces delayMs b hlo hhi, written_vscroll spaces d b hlo hhi]

theorem vscroll_bytes_witness :
    written (vscroll (-3) 250 (fresh 2 16)).trace = written (fresh 2 16).trace ++
      (List.replicate (-3 : Int).natAbs
        [0xFE, if (-3 : Int) ≥ 0 then 0x1C else 0x18]).flatten ∧
    (written (vscroll (-3) 250 (fresh 2 16)).trace).length
      = (written (fresh 2 16).trace).length + 2 * (-3 : Int).natAbs ∧
    ((-3 : Int) = 0 →
      written (vscroll (-3) 250 (fresh 2 16)).trace = written (fresh 2 16).trace) ∧
    ∀ d : Int, written (vscroll (-3) d (fresh 2 16)).trace
      = written (vscroll (-3) 250 (fresh 2 16)).trace :=
  vscroll_bytes (-3) 250 (fresh 2 16) (by decide) (by decide)


/-! ### Printing at a position -/

/-- C7: on a display with positive dimensions, `print(s, line, col)` returns and adds
exactly the bytes of `cursor(line, col)` followed by the bytes of `s`; it is `cursor(line,
col)` followed by `print(s)`, and the overload `print(line, col, s)` does the very same. -/
theorem print_at_position_bytes (s : List Nat) (rows cols line col : Int) (t : List Event)
    (hrows : 0 < rows) (hcols : 0 < cols) :
    print_line_col_s line col s ⟨new rows cols, t⟩
      = print_s_line_col s line col ⟨new rows cols, t⟩ ∧
    print_s_line_col s line col ⟨new rows cols, t⟩
      = (cursor line col ⟨new rows cols, t⟩).map (print_s s) ∧
    ∃ b1 b2, cursor line col ⟨new rows cols, t⟩ = some b1 ∧
      print_s_line_col s line col ⟨new rows cols, t⟩ = some b2 ∧
      written b2.trace = written b1.trace ++ s ∧
      written (print_s s b1).trace = written b1.trace ++ s := by
  have hrne : (⟨new rows cols, t⟩ : Board).lcd.numRows ≠ 0 := by simp [new]; omega
  have hcne : (⟨new rows cols, t⟩ : Board).lcd.numCols ≠ 0 := by simp [new]; omega
  obtain ⟨b1, hb1⟩ : ∃ b1, cursor line col ⟨new rows cols, t⟩ = some b1 :=
    ⟨_, cursor_some line col _ hrne hcne⟩
  refine ⟨rfl, rfl, b1, serialPrintStr s b1, hb1, ?_, ?_, ?_⟩
  · rw [print_s_line_col, hb1]; rfl
  · simp only [serialPrintStr, written_append, written_map_write]
  · simp only [print_s, serialPrintStr, written_append, written_map_write]

theorem print_at_position_bytes_witness :
    print_line_col_s 1 3 (cstr "ok") ⟨new 2 16, []⟩
      = print_s_line_col (cstr "ok") 1 3 ⟨new 2 16, []⟩ ∧
    print_s_line_col (cstr "ok") 1 3 ⟨new 2 16, []⟩
      = (cursor 1 3 ⟨new 2 16, []⟩).map (print_s (cstr "ok")) ∧
    ∃ b1 b2, cursor 1 3 ⟨new 2 16, []⟩ = some b1 ∧
      print_s_line_col (cstr "ok") 1 3 ⟨new 2 16, []⟩ = some b2 ∧
      written b2.trace = written b1.trace ++ cstr "ok" ∧
      written (print_s (cstr "ok") b1).trace = written b1.trace ++ cstr "ok" :=
  print_at_position_bytes (cstr "ok") 2 16 1 3 [] (by decide) (by decide)

/-! ### Flashing -/

theorem flashLoop_trace (d : Int) (n : Nat) (b : Board) :
    (flashLoop d n b).trace = b.trace ++ (List.replicate n
      [Event.write 0x7C, Event.write 128, Event.delay 5, Event.delay (toULong (Int.tmod d 1000)),
       Event.write 0x7C, Event.write 157, Event.delay 5,
       Event.delay (toULong (Int.tmod d 1000))]).flatten := by
  have h0 : levelByte 0 = 128 := levelByte_table 0 (by omega)
  have h100 : levelByte 100 = 157 := levelByte_table 100 (by omega)
  induction n generalizing b with
  | zero => simp [flashLoop]
  | succ k ih =>
    rw [flashLoop, ih, List.replicate_succ, List.flatten_cons, ← List.append_assoc]
    congr 1
    simp [delay, brightness_eq, h0, h100]

theorem written_flash_rounds (d : Nat) (n : Nat) :
    written (List.replicate n
      [Event.write 0x7C, Event.write 128, Event.delay 5, Event.delay d,
       Event.write 0x7C, Event.write 157, Event.delay 5, Event.delay d]).flatten
      = (List.replicate n [0x7C, 128, 0x7C, 157]).flatten := by
  induction n with
  | zero => rfl
  | succ k ih =>
    rw [List.replicate_succ, List.flatten_cons, written_append, ih, List.replicate_succ,
      List.flatten_cons]
    rfl

theorem written_flash (count delayMs : Int) (b : Board) :
    written (flash count delayMs b).trace = written b.trace ++
      (List.replicate count.toNat [0x7C, 128, 0x7C, 157]).flatten := by
  rw [flash, flashLoop_trace, written_append, written_flash_rounds]

/-- C8: `flash(count, delayMs)` adds exactly `max(count, 0)` repetitions of the four bytes
`0x7C, 128, 0x7C, 157` to the serial output; so for `count ≥ 1` the last byte written is
the level 157, and for `count ≤ 0` nothing at all happens. -/
theorem flash_bytes (count delayMs : Int) (b : Board) :
    written (flash count delayMs b).trace = written b.trace ++
      (List.replicate (max count 0).toNat [0x7C, 128, 0x7C, 157]).flatten ∧
    (1 ≤ count → (written (flash count delayMs b).trace).getLast? = some 157) ∧
    (count ≤ 0 → flash count delayMs b = b) := by
  have hmax : (max count 0).toNat = count.toNat := by omega
  refine ⟨by rw [hmax]; exact written_flash count delayMs b, fun h1 => ?_, fun h0 => ?_⟩
  · obtain ⟨k, hk⟩ : ∃ k : Nat, count.toNat = k + 1 := ⟨count.toNat - 1, by omega⟩
    rw [written_flash, hk, List.replicate_succ', List.flatten_append, ← List.append_assoc]
    simp
  · have hz : count.toNat = 0 := by omega
    rw [flash, hz]; rfl

theorem flash_bytes_witness :
    written (flash 3 100 (fresh 2 16)).trace = written (fresh 2 16).trace ++
      (List.replicate (max (3 : Int) 0).toNat [0x7C, 128, 0x7C, 157]).flatten ∧
    (written (flash 3 100 (fresh 2 16)).trace).getLast? = some 157 ∧
    flash (-1) 100 (fresh 2 16) = fresh 2 16 :=
  ⟨(flash_bytes 3 100 (fresh 2 16)).1, (flash_bytes 3 100 (fresh 2 16)).2.1 (by decide),
    (flash_bytes (-1) 100 (fresh 2 16)).2.2 (by decide)⟩


/-! ### Addressing -/

theorem emits_cursor_of_range (rows cols line col : Int) (t : List Event)
    (hline : 0 ≤ line ∧ line < rows) (hcol : 0 ≤ col ∧ col < cols) :
    emits (cursor line col) ⟨new rows cols, t⟩
      = some [0xFE, ((line % 2 * 64 + (if line > 1 then 20 else 0) + col + 128) % 256).toNat] := by
  have hrne : (⟨new rows cols, t⟩ : Board).lcd.numRows ≠ 0 := by simp [new]; omega
  have hcne : (⟨new rows cols, t⟩ : Board).lcd.numCols ≠ 0 := by simp [new]; omega
  rw [emits_of_trace _ _ _ _ (cursor_some line col _ hrne hcne) rfl]
  simp only [new, tmod_self_of_range line rows hline.1 hline.2,
    tmod_self_of_range col cols hcol.1 hcol.2, Int.tmod_eq_emod hline.1 (by omega : (0 : Int) ≤ 2)]
  rfl

/-- C9: on a display with at most 4 rows and 20 columns, two in-range positions whose
`cursor` calls add the same bytes (hence the same position byte) are the same position. -/
theorem cursor_in_range_injective (rows cols line col line' col' : Int) (t : List Event)
    (hrows : rows ≤ 4) (hcols : cols ≤ 20)
    (hline : 0 ≤ line ∧ line < rows) (hcol : 0 ≤ col ∧ col < cols)
    (hline' : 0 ≤ line' ∧ line' < rows) (hcol' : 0 ≤ col' ∧ col' < cols)
    (h : emits (cursor line col) ⟨new rows cols, t⟩
      = emits (cursor line' col') ⟨new rows cols, t⟩) :
    line = line' ∧ col = col' := by
  rw [emits_cursor_of_range rows cols line col t hline hcol,
    emits_cursor_of_range rows cols line' col' t hline' hcol'] at h
  simp only [Option.some.injEq, List.cons.injEq, and_true, true_and] at h
  obtain ⟨hl0, hl1⟩ := hline
  obtain ⟨hm0, hm1⟩ := hline'
  split_ifs at h <;> omega

theorem cursor_in_range_injective_witness :
    emits (cursor 2 5) ⟨new 4 20, []⟩ = emits (cursor 2 5) ⟨new 4 20, []⟩ ∧
    ((2 : Int) = 2 ∧ (5 : Int) = 5) :=
  ⟨rfl, cursor_in_range_injective 4 20 2 5 2 5 [] (by decide) (by decide) (by decide)
    (by decide) (by decide) (by decide) rfl⟩

/-- C10: for `pct > 100`, `brightness(pct)` does exactly what `brightness(pct mod 100)`
does (so `brightness(200)` adds `0x7C, 128`, the minimum level); hence for every
`pct ≥ 0` the level byte added lies in 128..157. -/
theorem brightness_above_100_wraps (pct : Int) (b : Board) :
    (100 < pct → brightness pct b = brightness (pct % 100) b) ∧
    written (brightness 200 b).trace = written b.trace ++ [0x7C, 128] ∧
    (0 ≤ pct → ∃ lvl, written (brightness pct b).trace = written b.trace ++ [0x7C, lvl] ∧
      128 ≤ lvl ∧ lvl ≤ 157) := by
  have hwrap : ∀ p : Int, 100 < p → brightness p b = brightness (p % 100) b := by
    intro p hp
    rw [brightness_eq, brightness_eq, if_pos hp, if_neg (by omega),
      Int.tmod_eq_emod (by omega) (by omega)]
  refine ⟨hwrap pct, ?_, fun h0 => ?_⟩
  · rw [hwrap 200 (by omega)]
    exact written_brightness_of_range (200 % 100) b (by omega) (by omega)
  · by_cases hp : 100 < pct
    · refine ⟨(128 + 29 * (pct % 100) / 100).toNat, ?_, by omega, by omega⟩
      rw [hwrap pct hp]
      exact written_brightness_of_range (pct % 100) b (by omega) (by omega)
    · exact ⟨(128 + 29 * pct / 100).toNat,
        written_brightness_of_range pct b h0 (by omega), by omega, by omega⟩

theorem brightness_above_100_wraps_witness :
    brightness 257 (fresh 2 16) = brightness (257 % 100) (fresh 2 16) ∧
    ∃ lvl, written (brightness 257 (fresh 2 16)).trace
        = written (fresh 2 16).trace ++ [0x7C, lvl] ∧ 128 ≤ lvl ∧ lvl ≤ 157 :=
  ⟨(brightness_above_100_wraps 257 (fresh 2 16)).1 (by decide),
    (brightness_above_100_wraps 257 (fresh 2 16)).2.2 (by decide)⟩


/-! ### The position byte -/

set_option maxRecDepth 100000 in
theorem set_position_bit : ∀ n : Nat, n < 256 → 128 ≤ n → n &&& 0x80 = 0x80 := by
  decide

/-- C11: for `rows > 0`, `0 < cols ≤ 44` and non-negative `line`, `col`, `cursor` returns
(no remainder by zero), and the value `offset + col + 128` it sends lies in 128..255: it
goes out as one byte unchanged and has the set-position bit `0x80` set. -/
theorem cursor_value_fits_byte (rows cols line col : Int) (t : List Event)
    (hrows : 0 < rows) (hcols : 0 < cols ∧ cols ≤ 44) (hline : 0 ≤ line) (hcol : 0 ≤ col) :
    ∃ v : Int,
      v = Int.tmod (Int.tmod line rows) 2 * 64 + (if Int.tmod line rows > 1 then 20 else 0)
        + Int.tmod col cols + 128 ∧
      128 ≤ v ∧ v ≤ 255 ∧
      v.toNat &&& SET_POSITION.toNat = SET_POSITION.toNat ∧
      cursor line col ⟨new rows cols, t⟩
        = some ⟨new rows cols, t ++ [Event.write 0xFE, Event.write v.toNat, Event.delay 10]⟩ := by
  obtain ⟨hc0, hc44⟩ := hcols
  have hrne : (⟨new rows cols, t⟩ : Board).lcd.numRows ≠ 0 := by simp [new]; omega
  have hcne : (⟨new rows cols, t⟩ : Board).lcd.numCols ≠ 0 := by simp [new]; omega
  have hl : Int.tmod line rows = line % rows := Int.tmod_eq_emod hline (by omega)
  have hl0 : 0 ≤ line % rows := Int.emod_nonneg line (by omega)
  have hc : Int.tmod col cols = col % cols := Int.tmod_eq_emod hcol (by omega)
  have hc1 : 0 ≤ col % cols := Int.emod_nonneg col (by omega)
  have hc2 : col % cols < cols := Int.emod_lt_of_pos col hc0
  have hm : Int.tmod (line % rows) 2 = line % rows % 2 := Int.tmod_eq_emod hl0 (by omega)
  have hlo : 128 ≤ Int.tmod (Int.tmod line rows) 2 * 64
      + (if Int.tmod line rows > 1 then 20 else 0) + Int.tmod col cols + 128 := by
    rw [hl, hc, hm]; split_ifs <;> omega
  have hhi : Int.tmod (Int.tmod line rows) 2 * 64
      + (if Int.tmod line rows > 1 then 20 else 0) + Int.tmod col cols + 128 ≤ 255 := by
    rw [hl, hc, hm]; split_ifs <;> omega
  refine ⟨_, rfl, hlo, hhi, ?_, ?_⟩
  · exact set_position_bit _ (by omega) (by omega)
  · rw [cursor_some line col _ hrne hcne]
    simp only [new]
    rw [Int.emod_eq_of_lt (by omega) (by omega)]

theorem cursor_value_fits_byte_witness :
    ∃ v : Int,
      v = Int.tmod (Int.tmod 7 4) 2 * 64 + (if Int.tmod 7 4 > 1 then 20 else 0)
        + Int.tmod 87 44 + 128 ∧
      128 ≤ v ∧ v ≤ 255 ∧
      v.toNat &&& SET_POSITION.toNat = SET_POSITION.toNat ∧
      cursor 7 87 ⟨new 4 44, []⟩
        = some ⟨new 4 44, [] ++ [Event.write 0xFE, Event.write v.toNat, Event.delay 10]⟩ :=
  cursor_value_fits_byte 4 44 7 87 [] (by decide) (by decide) (by decide) (by decide)


/-! ### Initialisation -/

theorem cursor_some_of_range (line col : Int) (b : Board)
    (hline : 0 ≤ line ∧ line < b.lcd.numRows) (hcol : 0 ≤ col ∧ col < b.lcd.numCols) :
    cursor line col b = some ⟨b.lcd, b.trace ++
      [Event.write 0xFE,
       Event.write ((line % 2 * 64 + (if line > 1 then 20 else 0) + col + 128) % 256).toNat,
       Event.delay 10]⟩ := by
  rw [cursor_some line col b (by omega) (by omega)]
  simp only [tmod_self_of_range line _ hline.1 hline.2, tmod_self_of_range col _ hcol.1 hcol.2,
    Int.tmod_eq_emod hline.1 (by omega : (0 : Int) ≤ 2)]

theorem board_eq (b : Board) (l : SLCD) (es : List Event) (h1 : b.lcd = l)
    (h2 : b.trace = es) : b = ⟨l, es⟩ := by
  cases b
  simp_all

/-- Everything `init` does on a display with at least 2 rows and 4 columns. -/
theorem init_trace (rows cols : Int) (t : List Event) (hrows : 2 ≤ rows) (hcols : 4 ≤ cols) :
    init ⟨new rows cols, t⟩ = some ⟨new rows cols, t ++ Event.begin 9600 ::
      ([Event.write 0xFE, Event.write 0x01, Event.write 0xFE, Event.write 0x82, Event.delay 10]
        ++ (cstr "SerLCD Class").map Event.write
        ++ [Event.write 0x7C, Event.write 0x9D, Event.delay 5, Event.write 0xFE,
            Event.write 0x0C, Event.write 0xFE, Event.write 0xC3, Event.delay 10]
        ++ (cstr "initialized").map Event.write
        ++ (List.replicate 3
            [Event.write 0x7C, Event.write 0x80, Event.delay 5, Event.delay 100,
             Event.write 0x7C, Event.write 0x9D, Event.delay 5, Event.delay 100]).flatten)⟩ := by
  have h100 : levelByte 100 = 157 := levelByte_table 100 (by omega)
  unfold init
  rw [print_s_line_col, cursor_some_of_range 0 2 _
    ⟨by omega, by show (0 : Int) < rows; omega⟩ ⟨by omega, by show (2 : Int) < cols; omega⟩]
  simp only [Option.map_some', Option.some_bind]
  rw [print_s_line_col, cursor_some_of_range 1 3 _
    ⟨by omega, by show (1 : Int) < rows; omega⟩ ⟨by omega, by show (3 : Int) < cols; omega⟩]
  simp only [Option.map_some']
  refine congrArg some (board_eq _ _ _ ?_ ?_)
  · rw [flash, flashLoop_lcd]; rfl
  · rw [flash, flashLoop_trace]
    simp [serialPrintStr, underlineCursorOff, clear, sendControl, brightness_eq, h100,
      serialPrintChar, serialBegin, byteOf, toChar, toULong, DISPLAY_CONTROL, CLEAR,
      UNDERLINE_CURSOR_OFF]
    decide


/-- C12: on a display with at least 2 rows and 4 columns `init()` returns; it first opens
the serial port at 9600 baud and then writes exactly: `0xFE 0x01`, `0xFE 0x82`, the text
"SerLCD Class", `0x7C 0x9D`, `0xFE 0x0C`, `0xFE 0xC3`, the text "initialized", and three
times `0x7C 0x80 0x7C 0x9D`; the last byte is the full backlight level `0x9D`. -/
theorem init_bytes (rows cols : Int) (t : List Event) (hrows : 2 ≤ rows) (hcols : 4 ≤ cols) :
    ∃ b1 es, init ⟨new rows cols, t⟩ = some b1 ∧
      b1.trace = t ++ Event.begin 9600 :: es ∧
      written es = [0xFE, 0x01, 0xFE, 0x82] ++ cstr "SerLCD Class"
        ++ [0x7C, 0x9D, 0xFE, 0x0C, 0xFE, 0xC3] ++ cstr "initialized"
        ++ (List.replicate 3 [0x7C, 0x80, 0x7C, 0x9D]).flatten ∧
      (written es).getLast? = some 0x9D :=
  ⟨_, _, init_trace rows cols t hrows hcols, rfl, by decide, by decide⟩

theorem init_bytes_witness :
    ∃ b1 es, init ⟨new 2 16, []⟩ = some b1 ∧
      b1.trace = [] ++ Event.begin 9600 :: es ∧
      written es = [0xFE, 0x01, 0xFE, 0x82] ++ cstr "SerLCD Class"
        ++ [0x7C, 0x9D, 0xFE, 0x0C, 0xFE, 0xC3] ++ cstr "initialized"
        ++ (List.replicate 3 [0x7C, 0x80, 0x7C, 0x9D]).flatten ∧
      (written es).getLast? = some 0x9D :=
  init_bytes 2 16 [] (by decide) (by decide)


/-! ### Delays -/

theorem pauses_append (xs ys : List Event) : pauses (xs ++ ys) = pauses xs ++ pauses ys := by
  induction xs with
  | nil => rfl
  | cons e es ih => cases e <;> simp [pauses, ih]

theorem pauses_scroll_rounds (x y d : Nat) (n : Nat) :
    pauses (List.replicate n [Event.write x, Event.write y, Event.delay d]).flatten
      = List.replicate n d := by
  induction n with
  | zero => rfl
  | succ k ih =>
    rw [List.replicate_succ, List.flatten_cons, pauses_append, ih, List.replicate_succ]
    rfl

theorem pauses_flash_rounds (d : Nat) (n : Nat) :
    pauses (List.replicate n
      [Event.write 0x7C, Event.write 128, Event.delay 5, Event.delay d,
       Event.write 0x7C, Event.write 157, Event.delay 5, Event.delay d]).flatten
      = (List.replicate n [5, d, 5, d]).flatten := by
  induction n with
  | zero => rfl
  | succ k ih =>
    rw [List.replicate_succ, List.flatten_cons, pauses_append, ih, List.replicate_succ,
      List.flatten_cons]
    rfl

theorem sum_replicate_pause (n d : Nat) : (List.replicate n d).sum = n * d := by
  induction n with
  | zero => simp
  | succ k ih => rw [List.replicate_succ, List.sum_cons, ih]; ring

theorem sum_flash_rounds (n d : Nat) :
    ((List.replicate n [5, d, 5, d]).flatten).sum = n * (2 * (d + 5)) := by
  induction n with
  | zero => simp
  | succ k ih =>
    rw [List.replicate_succ, List.flatten_cons, List.sum_append, ih]
    simp only [List.sum_cons, List.sum_nil]
    ring

theorem pauses_brightness (pct : Int) (b : Board) :
    pauses (brightness pct b).trace = pauses b.trace ++ [5] := by
  rw [brightness_eq, pauses_append]; rfl

theorem pauses_cursor (line col : Int) (b b1 : Board) (h : cursor line col b = some b1) :
    pauses b1.trace = pauses b.trace ++ [10] := by
  unfold cursor at h
  split at h
  · exact absurd h (by simp)
  · split at h
    · exact absurd h (by simp)
    · simp only [Option.some.injEq] at h
      rw [← h]
      simp only [delay, sendControl_trace, pauses_append]
      simp [pauses, toULong]

theorem pauses_vscroll (spaces delayMs : Int) (b : Board)
    (hlo : -32767 ≤ spaces) (hhi : spaces ≤ 32767) (hd0 : 0 ≤ delayMs) (hd1 : delayMs ≤ 32767) :
    pauses (vscroll spaces delayMs b).trace
      = pauses b.trace ++ List.replicate spaces.natAbs delayMs.toNat := by
  have hn : (wrapInt (if spaces > 0 then spaces else -spaces)).toNat = spaces.natAbs := by
    unfold wrapInt
    split <;> omega
  have hd : toULong delayMs = delayMs.toNat := by
    unfold toULong
    rw [Int.emod_eq_of_lt hd0 (by omega)]
  simp only [vscroll, vscrollLoop_trace, pauses_append, pauses_scroll_rounds, hn, hd]

theorem pauses_flash (count delayMs : Int) (b : Board) (hd0 : 0 ≤ delayMs) :
    pauses (flash count delayMs b).trace = pauses b.trace ++
      (List.replicate count.toNat
        [5, (delayMs % 1000).toNat, 5, (delayMs % 1000).toNat]).flatten := by
  have hd : toULong (Int.tmod delayMs 1000) = (delayMs % 1000).toNat := by
    unfold toULong
    rw [Int.tmod_eq_emod hd0 (by omega), Int.emod_eq_of_lt (by omega) (by omega)]
  rw [flash, flashLoop_trace, pauses_append, pauses_flash_rounds, hd]

/-- C13, as stated, fails for `vscroll`: `vscroll(1, -1)` asks `delay` for 4294967295 ms
(the `int` -1 converted to `unsigned long`), not for `|1| * (-1)` ms; and
`vscroll(-32768, 1)` does not pause at all, although `|-32768| * 1 = 32768`. -/
theorem vscroll_pause_not_product :
    pauses (vscroll 1 (-1) (fresh 2 16)).trace = [4294967295] ∧
    ((pauses (vscroll 1 (-1) (fresh 2 16)).trace).sum : Int) ≠ |(1 : Int)| * (-1) ∧
    pauses (vscroll (-32768) 1 (fresh 2 16)).trace = [] ∧
    ((pauses (vscroll (-32768) 1 (fresh 2 16)).trace).sum : Int) ≠ |(-32768 : Int)| * 1 := by
  decide


/-- C13, amended: the delays are fixed functions of the arguments.  `cursor`, whenever it
returns (it does for non-zero dimensions), pauses 10 ms; `brightness` pauses 5 ms; for
`0 ≤ delayMs` and `|spaces| ≤ 32767`, `vscroll(spaces, delayMs)` pauses `|spaces|` times
`delayMs` ms; for `count ≥ 0` and `delayMs ≥ 0`, `flash(count, delayMs)` pauses
`count * 2 * ((delayMs mod 1000) + 5)` ms in all, each pause below one second, and
`flash(count, 1000)` pauses 0 ms between the brightness changes. -/
theorem delays_fixed (rows cols line col pct spaces delayMs count : Int) (t : List Event)
    (hspaces : -32767 ≤ spaces ∧ spaces ≤ 32767) (hdelay : 0 ≤ delayMs ∧ delayMs ≤ 32767)
    (hcount : 0 ≤ count) :
    (∀ b1, cursor line col ⟨new rows cols, t⟩ = some b1 → pauses b1.trace = pauses t ++ [10]) ∧
    (rows ≠ 0 → cols ≠ 0 → (cursor line col ⟨new rows cols, t⟩).isSome = true) ∧
    pauses (brightness pct ⟨new rows cols, t⟩).trace = pauses t ++ [5] ∧
    pauses (vscroll spaces delayMs ⟨new rows cols, t⟩).trace
      = pauses t ++ List.replicate spaces.natAbs delayMs.toNat ∧
    ((pauses (vscroll spaces delayMs ⟨new rows cols, t⟩).trace).sum : Int)
      = (pauses t).sum + |spaces| * delayMs ∧
    pauses (flash count delayMs ⟨new rows cols, t⟩).trace = pauses t ++
      (List.replicate count.toNat
        [5, (delayMs % 1000).toNat, 5, (delayMs % 1000).toNat]).flatten ∧
    ((pauses (flash count delayMs ⟨new rows cols, t⟩).trace).sum : Int)
      = (pauses t).sum + count * 2 * (delayMs % 1000 + 5) ∧
    (∀ p ∈ pauses (flash count delayMs ⟨new rows cols, t⟩).trace, p ∈ pauses t ∨ p < 1000) ∧
    pauses (flash count 1000 ⟨new rows cols, t⟩).trace
      = pauses t ++ (List.replicate count.toNat [5, 0, 5, 0]).flatten := by
  obtain ⟨hs0, hs1⟩ := hspaces
  obtain ⟨hd0, hd1⟩ := hdelay
  have hm0 : 0 ≤ delayMs % 1000 := Int.emod_nonneg delayMs (by omega)
  have hm1 : delayMs % 1000 < 1000 := Int.emod_lt_of_pos delayMs (by omega)
  refine ⟨fun b1 h => pauses_cursor line col _ b1 h, fun hr hc => ?_, pauses_brightness pct _,
    pauses_vscroll spaces delayMs _ hs0 hs1 hd0 hd1, ?_, pauses_flash count delayMs _ hd0, ?_,
    ?_, ?_⟩
  · rw [cursor_some line col _ hr hc]; rfl
  · rw [pauses_vscroll spaces delayMs _ hs0 hs1 hd0 hd1, List.sum_append, sum_replicate_pause]
    push_cast
    rw [Int.toNat_of_nonneg hd0]
  · rw [pauses_flash count delayMs _ hd0, List.sum_append, sum_flash_rounds]
    push_cast
    rw [Int.toNat_of_nonneg hcount, Int.toNat_of_nonneg hm0]
    ring
  · intro p hp
    rw [pauses_flash count delayMs _ hd0, List.mem_append] at hp
    rcases hp with hp | hp
    · exact Or.inl hp
    · right
      rw [List.mem_flatten] at hp
      obtain ⟨l, hl, hpl⟩ := hp
      rw [List.eq_of_mem_replicate hl] at hpl
      simp only [List.mem_cons, List.mem_singleton, List.not_mem_nil, or_false] at hpl
      omega
  · rw [pauses_flash count 1000 _ (by omega)]
    rfl

theorem delays_fixed_witness :
    (∀ b1, cursor 1 3 ⟨new 2 16, []⟩ = some b1 → pauses b1.trace = pauses [] ++ [10]) ∧
    (cursor 1 3 ⟨new 2 16, []⟩).isSome = true ∧
    pauses (brightness 40 ⟨new 2 16, []⟩).trace = pauses [] ++ [5] ∧
    pauses (vscroll (-3) 250 ⟨new 2 16, []⟩).trace
      = pauses [] ++ List.replicate (-3 : Int).natAbs (250 : Int).toNat ∧
    ((pauses (vscroll (-3) 250 ⟨new 2 16, []⟩).trace).sum : Int)
      = (pauses []).sum + |(-3 : Int)| * 250 ∧
    pauses (flash 2 1234 ⟨new 2 16, []⟩).trace = pauses [] ++
      (List.replicate (2 : Int).toNat
        [5, ((1234 : Int) % 1000).toNat, 5, ((1234 : Int) % 1000).toNat]).flatten ∧
    ((pauses (flash 2 1234 ⟨new 2 16, []⟩).trace).sum : Int)
      = (pauses []).sum + 2 * 2 * (1234 % 1000 + 5) ∧
    (∀ p ∈ pauses (flash 2 1234 ⟨new 2 16, []⟩).trace, p ∈ pauses [] ∨ p < 1000) ∧
    pauses (flash 2 1000 ⟨new 2 16, []⟩).trace
      = pauses [] ++ (List.replicate (2 : Int).toNat [5, 0, 5, 0]).flatten := by
  have h := delays_fixed 2 16 1 3 40 (-3) 1234 2 [] (by decide) (by decide) (by decide)
  have h2 := delays_fixed 2 16 1 3 40 (-3) 250 2 [] (by decide) (by decide) (by decide)
  exact ⟨h.1, h.2.1 (by decide) (by decide), h.2.2.1, h2.2.2.2.1, h2.2.2.2.2.1, h.2.2.2.2.2.1,
    h.2.2.2.2.2.2.1, h.2.2.2.2.2.2.2.1, h.2.2.2.2.2.2.2.2⟩

end SLCD
